import Mathlib

/-!
Verification of the bot RL server (`bot-server.js`): a tabular Q-learning
WebSocket service.  The JavaScript program is shallowly embedded below:
JS numbers are modelled as rationals (`ℚ`) where the code only manipulates
finite values, and as an explicit `JSNum` type (finite / NaN / ±Infinity)
where non-finite values can flow; the Q-table (a JS object keyed by state
strings) is a function `String → Option (List ℚ)`; the per-connection
`ws._botState` object is a function `String → Option Pending`.
-/

namespace BotServer

/-- The fixed action list (`ACTIONS` in the source). -/
def ACTIONS : List String :=
  ["MOVE_TO_PLAYER", "MOVE_RANDOM", "SHOOT", "PICK_CRATE", "RETREAT", "IDLE"]

/-- Number of actions, `ACTIONS.length` (= 6). -/
def A : ℕ := ACTIONS.length

/-- RL hyperparameter defaults from the source: `ALPHA = 0.12`. -/
def defaultAlpha : ℚ := 12/100

/-- RL hyperparameter defaults from the source: `GAMMA = 0.96`. -/
def defaultGamma : ℚ := 96/100

/-- Default initial exploration rate `EPSILON = 0.25`. -/
def defaultEpsilon : ℚ := 25/100

/-- A raw observation record.  Each numeric field of the JS object
(`hp`, `ammo`, `dist`) is an optional rational (absent = `undefined`);
the flag fields (`inZone`, `hasKnife`) are optional booleans. -/
structure Obs where
  hp : Option ℚ
  ammo : Option ℚ
  dist : Option ℚ
  inZone : Option Bool
  hasKnife : Option Bool
deriving DecidableEq

/-- JS `x || d` for an optional numeric field `x`: an absent field or a
zero value (the falsy number) falls back to the default `d`. -/
def jsOr (v : Option ℚ) (d : ℚ) : ℚ :=
  match v with
  | none => d
  | some x => if x = 0 then d else x

/-- JS `Math.round` on a finite value: round half toward positive
infinity, i.e. `⌊q + 1/2⌋`. -/
def jsRound (q : ℚ) : ℤ := ⌊q + 1/2⌋

/-- `hp` bucket: `Math.floor(Math.max(0, Math.min(100, Math.round(obs.hp || 0))) / 25)`. -/
def hpBucket (o : Obs) : ℕ := (max 0 (min 100 (jsRound (jsOr o.hp 0)))).toNat / 25

/-- `ammo` bucket: `(obs.ammo && obs.ammo > 0) ? 1 : 0` — a falsy (absent
or zero) `ammo` short-circuits to 0, otherwise the comparison `ammo > 0`
decides. -/
def ammoBucket (o : Obs) : ℕ :=
  match o.ammo with
  | some q => if 0 < q then 1 else 0
  | none => 0

/-- `dist` value: `Math.max(0, Math.round(obs.dist || 999))`. -/
def distVal (o : Obs) : ℕ := (max 0 (jsRound (jsOr o.dist 999))).toNat

/-- `dist` bucket: `Math.min(4, Math.floor(dist / 20))`. -/
def distBucket (o : Obs) : ℕ := min 4 (distVal o / 20)

/-- `obs.inZone ? 1 : 0`. -/
def zoneBit (o : Obs) : ℕ :=
  match o.inZone with
  | some true => 1
  | _ => 0

/-- `obs.hasKnife ? 1 : 0`. -/
def knifeBit (o : Obs) : ℕ :=
  match o.hasKnife with
  | some true => 1
  | _ => 0

/-- `discretize(obs)`: the five bucket values joined with pipes. -/
def discretize (o : Obs) : String :=
  toString (hpBucket o) ++ "|" ++ toString (ammoBucket o) ++ "|" ++
    toString (distBucket o) ++ "|" ++ toString (zoneBit o) ++ "|" ++ toString (knifeBit o)

/-- The Q-table, a JS object mapping state keys to arrays of `A` numbers. -/
abbrev QTable := String → Option (List ℚ)

/-- The table the process starts with when no save file loads. -/
def emptyTable : QTable := fun _ => none

/-- `ensureState(key)`: `if (!qtable[key]) qtable[key] = Array(ACTIONS.length).fill(0)`.
A present row is kept, an absent row becomes the all-zero row of length `A`. -/
def ensureState (t : QTable) (k : String) : QTable :=
  fun k1 => if k1 = k then some ((t k).getD (List.replicate A 0)) else t k1

/-- Read a state key's row (callers only do this after `ensureState`). -/
def getRow (t : QTable) (k : String) : List ℚ := (t k).getD []

/-- Read one Q-value `qtable[k][a]`. -/
def getQ (t : QTable) (k : String) (a : ℕ) : ℚ := (getRow t k).getD a 0

/-- `Math.max(...row)` for the nonempty rows the program builds. -/
def rowMax : List ℚ → ℚ
  | [] => 0
  | x :: xs => xs.foldl max x

/-- The Q-learning update `updateQ(s, a, r, sNext)`: ensure both rows,
read `qsa = qtable[s][a]` and `maxNext = Math.max(...qtable[sNext])`, then
write `qtable[s][a] = qsa + ALPHA * (r + GAMMA * maxNext - qsa)`.
`alpha` and `gamma` are the process hyperparameters. -/
def updateQ (alpha gamma : ℚ) (t : QTable) (s : String) (a : ℕ) (r : ℚ)
    (sNext : String) : QTable :=
  let t1 := ensureState (ensureState t s) sNext
  let qsa := getQ t1 s a
  let maxNext := rowMax (getRow t1 sNext)
  fun k => if k = s then some ((getRow t1 s).set a (qsa + alpha * (r + gamma * maxNext - qsa)))
           else t1 k

/-- The scan loop of `chooseAction`: running index `i`, best index `bi`,
best value `bv`, over the remaining values.  An entry strictly greater
than the running best replaces it (`if (qvals[i] > bestV)`). -/
def argmaxGo : ℕ → ℕ → ℚ → List ℚ → ℕ
  | _, bi, _, [] => bi
  | i, bi, bv, x :: xs => if bv < x then argmaxGo (i + 1) i x xs else argmaxGo (i + 1) bi bv xs

/-- The greedy scan of `chooseAction`: `bestV` starts at `-Infinity`, so
the first element always becomes the initial best; an empty row returns
the initial `bestIdx = 0`. -/
def argmaxIdx : List ℚ → ℕ
  | [] => 0
  | x :: xs => argmaxGo 1 0 x xs

/-- `chooseAction(key)`: ensure the row, then explore with probability
`EPSILON` (the draw `Math.random()` is the parameter `randv`, the random
action `Math.floor(Math.random()*ACTIONS.length)` is `randIdx`), else
return the first index of the row's maximum.  Returns the chosen index
together with the table after the ensure. -/
def chooseAction (eps randv : ℚ) (randIdx : ℕ) (t : QTable) (k : String) : ℕ × QTable :=
  let t1 := ensureState t k
  if randv < eps then (randIdx, t1) else (argmaxIdx (getRow t1 k), t1)

/-- A pending decision stored in `ws._botState[botId]`:
`{ state: stateKey, actionIdx: actionIdx, lastObsAt: Date.now() }`. -/
structure Pending where
  state : String
  actionIdx : ℕ
  lastObsAt : ℕ
deriving DecidableEq

/-- The per-connection session tracker `ws._botState`, keyed by bot id. -/
abbrev BotState := String → Option Pending

/-- The tracker of a fresh connection (`ws._botState = {}`). -/
def emptyBotState : BotState := fun _ => none

/-- `String(msg.botId || 'unknown')` for a bot-identifier field that is a
string or absent: an absent field or the empty (falsy) string becomes
the literal `"unknown"`. -/
def jsBotId (botId : Option String) : String :=
  match botId with
  | none => "unknown"
  | some s => if s = "" then "unknown" else s

/-- Record a decision: `ws._botState[botId] = { state, actionIdx, lastObsAt }`,
overwriting any pending decision for that bot. -/
def recordDecision (bs : BotState) (b : String) (p : Pending) : BotState :=
  fun b1 => if b1 = b then some p else bs b1

/-- Consume a decision: `const rec = ws._botState[botId]` followed, when
present, by `delete ws._botState[botId]`; returns the record (if any) and
the tracker afterwards. -/
def consumeDecision (bs : BotState) (b : String) : Option Pending × BotState :=
  match bs b with
  | some p => (some p, fun b1 => if b1 = b then none else bs b1)
  | none => (none, bs)

/-- The `obs` message branch: discretize, choose an action, store the
pending decision under the (defaulted) bot id, and answer
`{ type: 'action', botId, action: ACTIONS[actionIdx] }`.  Returns the new
table, the new tracker, and the reply's `(botId, action)` fields.
`now` is `Date.now()`. -/
def handleObs (eps randv : ℚ) (randIdx now : ℕ) (t : QTable) (bs : BotState)
    (botId : Option String) (obs : Obs) : QTable × BotState × String × String :=
  let b := jsBotId botId
  let stateKey := discretize obs
  let choice := chooseAction eps randv randIdx t stateKey
  let bs1 := recordDecision bs b ⟨stateKey, choice.1, now⟩
  (choice.2, bs1, b, ACTIONS.getD choice.1 "")

/-- The `reward` message branch: look up the pending decision for the
(defaulted) bot id; when present, apply `updateQ` with the discretized
`nextObs` and delete the pending record; otherwise do nothing.
`reward` is the already-coerced finite reward value. -/
def handleReward (alpha gamma : ℚ) (t : QTable) (bs : BotState)
    (botId : Option String) (reward : ℚ) (nextObs : Obs) : QTable × BotState :=
  let b := jsBotId botId
  match consumeDecision bs b with
  | (some pd, bs1) => (updateQ alpha gamma t pd.state pd.actionIdx reward (discretize nextObs), bs1)
  | (none, _) => (t, bs)

/-- A JS number: finite, NaN, or a signed infinity.  `JSON.parse` yields
`Infinity` for numeric literals that overflow the double range (e.g.
`1e999`), so a parsed reward field can be non-finite. -/
inductive JSNum where
  | fin : ℚ → JSNum
  | nan : JSNum
  | inf : JSNum
  | ninf : JSNum
deriving DecidableEq

/-- Finiteness of a JS number (`Number.isFinite`). -/
def JSNum.isFinite : JSNum → Bool
  | .fin _ => true
  | _ => false

/-- JS truthiness of a number: `0` and `NaN` are falsy. -/
def jsNumTruthy : JSNum → Bool
  | .fin q => decide (q ≠ 0)
  | .nan => false
  | _ => true

/-- `Number(msg.reward || 0)` for a reward field that is a parsed JSON
number or absent: a falsy reward falls back to `0`, any other value —
including a non-finite one — passes through unchanged (`Number` is the
identity on numbers). -/
def coerceReward (reward : Option JSNum) : JSNum :=
  match reward with
  | none => .fin 0
  | some v => if jsNumTruthy v then v else .fin 0

/-- The value the reward branch hands to `updateQ`: `some` of the coerced
reward when a pending decision exists for the message's bot id, `none`
when the branch is a no-op.  No finiteness check occurs on this path. -/
def rewardPassedToUpdateQ (bs : BotState) (botId : Option String)
    (reward : Option JSNum) : Option JSNum :=
  match bs (jsBotId botId) with
  | some _ => some (coerceReward reward)
  | none => none

/-- The epsilon floor `0.01` in `Math.max(0.01, EPSILON * 0.9995)`. -/
def epsilonFloor : ℚ := 1/100

/-- The per-tick decay factor `0.9995`. -/
def decayFactor : ℚ := 9995/10000

/-- One periodic tick's effect on `EPSILON`:
`EPSILON = Math.max(0.01, EPSILON * 0.9995)`. -/
def decayStep (e : ℚ) : ℚ := max epsilonFloor (e * decayFactor)

/-- `EPSILON` after `n` periodic ticks starting from `e`. -/
def decayIterate : ℕ → ℚ → ℚ
  | 0, e => e
  | n + 1, e => decayIterate n (decayStep e)

/-! ### Properties of the greedy scan -/

/-- Invariant of the `chooseAction` scan loop: it either keeps the
incoming best index (when nothing in the remainder beats the incoming
best value), or returns the offset position of the first strict
maximum of the remainder, which then dominates everything scanned. -/
lemma argmaxGo_spec (l : List ℚ) : ∀ (i bi : ℕ) (bv : ℚ),
    (argmaxGo i bi bv l = bi ∧ ∀ x ∈ l, x ≤ bv) ∨
    (∃ j, ∃ hj : j < l.length, argmaxGo i bi bv l = i + j ∧ bv < l.get ⟨j, hj⟩ ∧
      (∀ k, ∀ hk : k < l.length, k < j → l.get ⟨k, hk⟩ < l.get ⟨j, hj⟩) ∧
      (∀ k, ∀ hk : k < l.length, l.get ⟨k, hk⟩ ≤ l.get ⟨j, hj⟩)) := by
  induction l with
  | nil =>
    intro i bi bv
    exact Or.inl ⟨rfl, by simp⟩
  | cons x xs ih =>
    intro i bi bv
    by_cases h : bv < x
    · rw [argmaxGo, if_pos h]
      rcases ih (i + 1) i x with ⟨he, hall⟩ | ⟨j, hj, he, hgt, hfirst, hmax⟩
      · refine Or.inr ⟨0, by simp, by simpa using he, by simpa using h, ?_, ?_⟩
        · intro k hk hk0
          exact absurd hk0 (Nat.not_lt_zero k)
        · intro k hk
          cases k with
          | zero => simp
          | succ m =>
            simp only [List.get_cons_succ, List.get_cons_zero]
            exact hall _ (List.get_mem xs _ _)
      · refine Or.inr ⟨j + 1, by simpa using hj, ?_, ?_, ?_, ?_⟩
        · rw [he]; omega
        · simpa using lt_trans h hgt
        · intro k hk hkj
          cases k with
          | zero => simpa using hgt
          | succ m =>
            simp only [List.get_cons_succ]
            exact hfirst m (by simpa using hk) (by omega)
        · intro k hk
          cases k with
          | zero => simpa using le_of_lt hgt
          | succ m =>
            simp only [List.get_cons_succ]
            exact hmax m (by simpa using hk)
    · rw [argmaxGo, if_neg h]
      rcases ih (i + 1) bi bv with ⟨he, hall⟩ | ⟨j, hj, he, hgt, hfirst, hmax⟩
      · refine Or.inl ⟨he, ?_⟩
        intro y hy
        rcases List.mem_cons.mp hy with hy0 | hy1
        · exact hy0 ▸ le_of_not_lt h
        · exact hall y hy1
      · refine Or.inr ⟨j + 1, by simpa using hj, ?_, ?_, ?_, ?_⟩
        · rw [he]; omega
        · simpa using hgt
        · intro k hk hkj
          cases k with
          | zero => simpa using lt_of_le_of_lt (le_of_not_lt h) hgt
          | succ m =>
            simp only [List.get_cons_succ]
            exact hfirst m (by simpa using hk) (by omega)
        · intro k hk
          cases k with
          | zero => simpa using le_of_lt (lt_of_le_of_lt (le_of_not_lt h) hgt)
          | succ m =>
            simp only [List.get_cons_succ]
            exact hmax m (by simpa using hk)

/-- On a nonempty row, `argmaxIdx` is in bounds, every entry earlier
than it is strictly smaller (ties break to the lowest index), and it
dominates every entry of the row. -/
lemma argmaxIdx_spec (x : ℚ) (xs : List ℚ) :
    ∃ hj : argmaxIdx (x :: xs) < (x :: xs).length,
      (∀ k, ∀ hk : k < (x :: xs).length, k < argmaxIdx (x :: xs) →
        (x :: xs).get ⟨k, hk⟩ < (x :: xs).get ⟨argmaxIdx (x :: xs), hj⟩) ∧
      (∀ k, ∀ hk : k < (x :: xs).length,
        (x :: xs).get ⟨k, hk⟩ ≤ (x :: xs).get ⟨argmaxIdx (x :: xs), hj⟩) := by
  have hdef : argmaxIdx (x :: xs) = argmaxGo 1 0 x xs := rfl
  rcases argmaxGo_spec xs 1 0 x with ⟨he, hall⟩ | ⟨j, hj, he, hgt, hfirst, hmax⟩
  · rw [hdef, he]
    refine ⟨by simp, ?_, ?_⟩
    · intro k hk hk0
      exact absurd hk0 (Nat.not_lt_zero k)
    · intro k hk
      cases k with
      | zero => simp
      | succ m =>
        simp only [List.get_cons_succ, List.get_cons_zero]
        exact hall _ (List.get_mem xs _ _)
  · have hidx : argmaxIdx (x :: xs) = j + 1 := by rw [hdef, he]; omega
    rw [hidx]
    refine ⟨by simpa using hj, ?_, ?_⟩
    · intro k hk hkj
      cases k with
      | zero => simpa using hgt
      | succ m =>
        simp only [List.get_cons_succ]
        exact hfirst m (by simpa using hk) (by omega)
    · intro k hk
      cases k with
      | zero => simpa using le_of_lt hgt
      | succ m =>
        simp only [List.get_cons_succ]
        exact hmax m (by simpa using hk)

/-- A row whose entries are all equal has its first maximum at index 0. -/
lemma argmaxIdx_all_eq (l : List ℚ) (c : ℚ)
    (h : ∀ k, ∀ hk : k < l.length, l.get ⟨k, hk⟩ = c) : argmaxIdx l = 0 := by
  cases l with
  | nil => rfl
  | cons x xs =>
    rcases argmaxIdx_spec x xs with ⟨hj, hfirst, _⟩
    by_contra hne
    have h0 : (0 : ℕ) < argmaxIdx (x :: xs) := Nat.pos_of_ne_zero hne
    have := hfirst 0 (by simp) h0
    rw [h 0 (by simp), h _ hj] at this
    exact lt_irrefl c this

/-! ### Row update helpers -/

/-- Writing index `i` of a row and reading it back yields the written value. -/
lemma qrow_getD_set_self (l : List ℚ) (i : ℕ) (v : ℚ) (h : i < l.length) :
    (l.set i v).getD i 0 = v := by
  induction l generalizing i with
  | nil => simp at h
  | cons x xs ih =>
    cases i with
    | zero => simp
    | succ n =>
      simp only [List.set_cons_succ, List.getD_cons_succ]
      exact ih n (by simpa using h)

/-- Writing index `i` of a row leaves every other index unchanged. -/
lemma qrow_getD_set_ne (l : List ℚ) (i j : ℕ) (v : ℚ) (h : j ≠ i) :
    (l.set i v).getD j 0 = l.getD j 0 := by
  induction l generalizing i j with
  | nil => simp
  | cons x xs ih =>
    cases i with
    | zero =>
      cases j with
      | zero => exact absurd rfl h
      | succ m => simp
    | succ n =>
      cases j with
      | zero => simp
      | succ m =>
        simp only [List.set_cons_succ, List.getD_cons_succ]
        exact ih n m (fun e => h (by omega))

/-- The row an `ensureState` pass leaves at its own key. -/
lemma ensureState_self (t : QTable) (k : String) :
    ensureState t k k = some ((t k).getD (List.replicate A 0)) := by
  simp [ensureState]

/-- `ensureState` leaves every other key untouched. -/
lemma ensureState_other (t : QTable) (k k1 : String) (h : k1 ≠ k) :
    ensureState t k k1 = t k1 := by
  simp [ensureState, h]

/-- After the double ensure of `updateQ`, the row at `s` is the original
row when present and the zero row otherwise. -/
lemma ensure2_at_s (t : QTable) (s sNext : String) :
    ensureState (ensureState t s) sNext s = some ((t s).getD (List.replicate A 0)) := by
  by_cases h : s = sNext
  · subst h
    simp [ensureState]
  · rw [ensureState_other _ _ _ h, ensureState_self]

/-- After the double ensure of `updateQ`, the row at `sNext` is the
original row when present and the zero row otherwise. -/
lemma ensure2_at_sNext (t : QTable) (s sNext : String) :
    ensureState (ensureState t s) sNext sNext = some ((t sNext).getD (List.replicate A 0)) := by
  by_cases h : sNext = s
  · subst h
    simp [ensureState]
  · rw [ensureState_self, ensureState_other _ _ _ h]

/-- Claim C1: for a well-formed row at `s` and an action index `a < A`,
`updateQ` first ensures rows for `s` and `sNext` (creating zero rows of
length `A` when absent, keeping present rows), then rewrites exactly the
entry at `(s, a)` to `current + alpha * (r + gamma * bestNext - current)`
where `current` is the prior value at `(s, a)` and `bestNext` the maximum
over the row of `sNext`; every other key's row and every other entry of
the row at `s` is unchanged. -/
theorem updateQ_correct (alpha gamma r : ℚ) (t : QTable) (s sNext : String) (a : ℕ)
    (hWF : ∀ row, t s = some row → row.length = A) (ha : a < A) :
    (t s = none → ensureState (ensureState t s) sNext s = some (List.replicate A 0)) ∧
    (∀ row, t s = some row → ensureState (ensureState t s) sNext s = some row) ∧
    (t sNext = none → ensureState (ensureState t s) sNext sNext = some (List.replicate A 0)) ∧
    (∀ row, t sNext = some row → ensureState (ensureState t s) sNext sNext = some row) ∧
    (∀ k, k ≠ s → k ≠ sNext → ensureState (ensureState t s) sNext k = t k) ∧
    (updateQ alpha gamma t s a r sNext) s =
      some ((getRow (ensureState (ensureState t s) sNext) s).set a
        (getQ (ensureState (ensureState t s) sNext) s a +
          alpha * (r + gamma * rowMax (getRow (ensureState (ensureState t s) sNext) sNext) -
            getQ (ensureState (ensureState t s) sNext) s a))) ∧
    (∀ k, k ≠ s → (updateQ alpha gamma t s a r sNext) k =
      ensureState (ensureState t s) sNext k) ∧
    getQ (updateQ alpha gamma t s a r sNext) s a =
      getQ (ensureState (ensureState t s) sNext) s a +
        alpha * (r + gamma * rowMax (getRow (ensureState (ensureState t s) sNext) sNext) -
          getQ (ensureState (ensureState t s) sNext) s a) ∧
    (∀ j, j ≠ a → getQ (updateQ alpha gamma t s a r sNext) s j =
      getQ (ensureState (ensureState t s) sNext) s j) := by
  have hsrow : ensureState (ensureState t s) sNext s =
      some ((t s).getD (List.replicate A 0)) := ensure2_at_s t s sNext
  have hlen : (getRow (ensureState (ensureState t s) sNext) s).length = A := by
    rw [getRow, hsrow]
    cases hts : t s with
    | none => simp
    | some row => simpa using hWF row hts
  refine ⟨?_, ?_, ?_, ?_, ?_, ?_, ?_, ?_, ?_⟩
  · intro h
    rw [hsrow, h]
    rfl
  · intro row h
    rw [hsrow, h]
    rfl
  · intro h
    rw [ensure2_at_sNext, h]
    rfl
  · intro row h
    rw [ensure2_at_sNext, h]
    rfl
  · intro k hks hkn
    rw [ensureState_other _ _ _ hkn, ensureState_other _ _ _ hks]
  · simp [updateQ]
  · intro k hk
    simp [updateQ, hk]
  · have : (updateQ alpha gamma t s a r sNext) s =
        some ((getRow (ensureState (ensureState t s) sNext) s).set a
          (getQ (ensureState (ensureState t s) sNext) s a +
            alpha * (r + gamma * rowMax (getRow (ensureState (ensureState t s) sNext) sNext) -
              getQ (ensureState (ensureState t s) sNext) s a))) := by
      simp [updateQ]
    rw [getQ, getRow, this, Option.getD_some]
    exact qrow_getD_set_self _ a _ (hlen ▸ ha)
  · intro j hj
    have : (updateQ alpha gamma t s a r sNext) s =
        some ((getRow (ensureState (ensureState t s) sNext) s).set a
          (getQ (ensureState (ensureState t s) sNext) s a +
            alpha * (r + gamma * rowMax (getRow (ensureState (ensureState t s) sNext) sNext) -
              getQ (ensureState (ensureState t s) sNext) s a))) := by
      simp [updateQ]
    rw [getQ, getRow, this, Option.getD_some, qrow_getD_set_ne _ _ _ _ hj]
    rfl

/-- Witness for C1: the update instantiated on the empty table at
`s = "s"`, `a = 2`, `r = 1`, `sNext = "t"` with the default
hyperparameters. -/
theorem updateQ_correct_witness :
    (∀ row, emptyTable "s" = some row → row.length = A) ∧ 2 < A ∧
    ((emptyTable "s" = none →
        ensureState (ensureState emptyTable "s") "t" "s" = some (List.replicate A 0)) ∧
    (∀ row, emptyTable "s" = some row →
        ensureState (ensureState emptyTable "s") "t" "s" = some row) ∧
    (emptyTable "t" = none →
        ensureState (ensureState emptyTable "s") "t" "t" = some (List.replicate A 0)) ∧
    (∀ row, emptyTable "t" = some row →
        ensureState (ensureState emptyTable "s") "t" "t" = some row) ∧
    (∀ k, k ≠ "s" → k ≠ "t" → ensureState (ensureState emptyTable "s") "t" k = emptyTable k) ∧
    (updateQ defaultAlpha defaultGamma emptyTable "s" 2 1 "t") "s" =
      some ((getRow (ensureState (ensureState emptyTable "s") "t") "s").set 2
        (getQ (ensureState (ensureState emptyTable "s") "t") "s" 2 +
          defaultAlpha * (1 + defaultGamma *
              rowMax (getRow (ensureState (ensureState emptyTable "s") "t") "t") -
            getQ (ensureState (ensureState emptyTable "s") "t") "s" 2))) ∧
    (∀ k, k ≠ "s" → (updateQ defaultAlpha defaultGamma emptyTable "s" 2 1 "t") k =
      ensureState (ensureState emptyTable "s") "t" k) ∧
    getQ (updateQ defaultAlpha defaultGamma emptyTable "s" 2 1 "t") "s" 2 =
      getQ (ensureState (ensureState emptyTable "s") "t") "s" 2 +
        defaultAlpha * (1 + defaultGamma *
            rowMax (getRow (ensureState (ensureState emptyTable "s") "t") "t") -
          getQ (ensureState (ensureState emptyTable "s") "t") "s" 2) ∧
    (∀ j, j ≠ 2 → getQ (updateQ defaultAlpha defaultGamma emptyTable "s" 2 1 "t") "s" j =
      getQ (ensureState (ensureState emptyTable "s") "t") "s" j)) :=
  ⟨fun row h => by simp [emptyTable] at h, by decide,
    updateQ_correct defaultAlpha defaultGamma 1 emptyTable "s" "t" 2
      (fun row h => by simp [emptyTable] at h) (by decide)⟩

/-- Claim C6: the update is idempotent at equilibrium — with reward 0 and
`gamma * bestNext` equal to the current value at `(s, a)`, the updated
value equals the original value. -/
theorem updateQ_idempotent (alpha gamma : ℚ) (t : QTable) (s sNext : String) (a : ℕ)
    (h : gamma * rowMax (getRow (ensureState (ensureState t s) sNext) sNext) =
      getQ (ensureState (ensureState t s) sNext) s a) :
    getQ (updateQ alpha gamma t s a 0 sNext) s a =
      getQ (ensureState (ensureState t s) sNext) s a := by
  have hup : (updateQ alpha gamma t s a 0 sNext) s =
      some ((getRow (ensureState (ensureState t s) sNext) s).set a
        (getQ (ensureState (ensureState t s) sNext) s a +
          alpha * (0 + gamma * rowMax (getRow (ensureState (ensureState t s) sNext) sNext) -
            getQ (ensureState (ensureState t s) sNext) s a))) := by
    simp [updateQ]
  have hval : getQ (ensureState (ensureState t s) sNext) s a +
      alpha * (0 + gamma * rowMax (getRow (ensureState (ensureState t s) sNext) sNext) -
        getQ (ensureState (ensureState t s) sNext) s a) =
      getQ (ensureState (ensureState t s) sNext) s a := by
    rw [zero_add, h]
    ring
  rw [getQ, getRow, hup, Option.getD_some, hval]
  by_cases hlt : a < (getRow (ensureState (ensureState t s) sNext) s).length
  · rw [qrow_getD_set_self _ a _ hlt]
  · rw [List.getD_eq_default _ _ (by simpa using le_of_not_lt hlt)]
    rw [getQ, List.getD_eq_default _ _ (le_of_not_lt hlt)]

/-- Witness for C6: on the empty table the ensured rows are all zero, so
the equilibrium hypothesis holds and the entry stays 0. -/
theorem updateQ_idempotent_witness :
    defaultGamma * rowMax (getRow (ensureState (ensureState emptyTable "s") "t") "t") =
      getQ (ensureState (ensureState emptyTable "s") "t") "s" 0 ∧
    getQ (updateQ defaultAlpha defaultGamma emptyTable "s" 0 0 "t") "s" 0 =
      getQ (ensureState (ensureState emptyTable "s") "t") "s" 0 := by
  have h : defaultGamma * rowMax (getRow (ensureState (ensureState emptyTable "s") "t") "t") =
      getQ (ensureState (ensureState emptyTable "s") "t") "s" 0 := by
    rw [getRow, ensure2_at_sNext, getQ, getRow, ensure2_at_s]
    norm_num [emptyTable, A, ACTIONS, List.replicate, rowMax]
  exact ⟨h, updateQ_idempotent defaultAlpha defaultGamma emptyTable "s" "t" 0 h⟩

/-- Claim C2 counterexample: a present distance of 0 is falsy in JS, so
`obs.dist || 999` replaces it by the sentinel and the bucket is 4, not 0. -/
theorem distBucket_zero_counterexample :
    distBucket ⟨none, none, some 0, none, none⟩ = 4 ∧
    distBucket ⟨none, none, some 0, none, none⟩ ≠ 0 := by
  have h : distBucket ⟨none, none, some 0, none, none⟩ = 4 := by
    norm_num [distBucket, distVal, jsOr, jsRound]; decide
  exact ⟨h, by rw [h]; decide⟩

/-- Claim C2 (amended): the distance bucket defaults to the sentinel 999
(bucket 4) when the field is absent or equal to 0 (both are falsy in JS),
clamps a negative distance to 0 (bucket 0), and for a present positive
distance `d` equals `min 4 (round(d) / 20)`. -/
theorem distBucket_amended (o : Obs) :
    (o.dist = none → distBucket o = 4) ∧
    (o.dist = some 0 → distBucket o = 4) ∧
    (∀ d, o.dist = some d → d < 0 → distBucket o = 0) ∧
    (∀ d, o.dist = some d → 0 < d → distBucket o = min 4 ((jsRound d).toNat / 20)) := by
  refine ⟨?_, ?_, ?_, ?_⟩
  · intro h
    norm_num [distBucket, distVal, jsOr, jsRound, h]; decide
  · intro h
    norm_num [distBucket, distVal, jsOr, jsRound, h]; decide
  · intro d h hd
    have hne : d ≠ 0 := ne_of_lt hd
    have hr : jsRound d ≤ 0 := by
      have h1 : ⌊d + 1/2⌋ < (1:ℤ) := Int.floor_lt.mpr (by push_cast; linarith)
      rw [jsRound]
      omega
    simp only [distBucket, distVal, jsOr, h, if_neg hne]
    rw [max_eq_left hr]
    decide
  · intro d h hd
    have hne : d ≠ 0 := ne_of_gt hd
    have hr : 0 ≤ jsRound d := by
      rw [jsRound]
      exact Int.le_floor.mpr (by push_cast; linarith)
    simp only [distBucket, distVal, jsOr, h, if_neg hne]
    rw [max_eq_right hr]

/-- Witness for C2's amended theorem: a present distance of 50 buckets to
`min 4 (50 / 20) = 2`. -/
theorem distBucket_amended_witness :
    distBucket ⟨none, none, some 50, none, none⟩ = min 4 ((jsRound 50).toNat / 20) :=
  (distBucket_amended ⟨none, none, some 50, none, none⟩).2.2.2 50 rfl (by norm_num)

/-- Claim C4: a reward message whose bot id has no pending decision is a
complete no-op — the table and the tracker come back unchanged. -/
theorem reward_no_pending_noop (alpha gamma reward : ℚ) (t : QTable) (bs : BotState)
    (botId : Option String) (nextObs : Obs)
    (h : bs (jsBotId botId) = none) :
    handleReward alpha gamma t bs botId reward nextObs = (t, bs) := by
  simp [handleReward, consumeDecision, h]

/-- Witness for C4: a reward for bot `"b1"` on a fresh connection does
nothing. -/
theorem reward_no_pending_noop_witness :
    emptyBotState (jsBotId (some "b1")) = none ∧
    handleReward defaultAlpha defaultGamma emptyTable emptyBotState (some "b1") 1
      ⟨none, none, none, none, none⟩ = (emptyTable, emptyBotState) :=
  ⟨rfl, reward_no_pending_noop defaultAlpha defaultGamma 1 emptyTable emptyBotState
    (some "b1") ⟨none, none, none, none, none⟩ rfl⟩

/-- Claim C5: recording a decision overwrites any pending decision for the
same bot, so after two records only the second is retrievable; consuming
removes the pending decision, so a second consume signals absence. -/
theorem sessionTracker_overwrite_consume (bs : BotState) (b : String) (p1 p2 : Pending) :
    (recordDecision (recordDecision bs b p1) b p2) b = some p2 ∧
    (consumeDecision (recordDecision bs b p2) b).1 = some p2 ∧
    ((consumeDecision (recordDecision bs b p2) b).2) b = none ∧
    (consumeDecision ((consumeDecision (recordDecision bs b p2) b).2) b).1 = none := by
  simp [recordDecision, consumeDecision]

/-- Claim C3: with exploration rate 0 (and the draw of `Math.random()`
nonnegative, as it always is), `chooseAction` returns the first index of
the maximum of the key's ensured row: the returned index is in bounds,
dominates every entry, every earlier entry is strictly smaller, and on a
freshly created all-zero row the result is index 0. -/
theorem chooseAction_greedy (randv : ℚ) (randIdx : ℕ) (t : QTable) (k : String)
    (hWF : ∀ row, t k = some row → row.length = A) (hrv : 0 ≤ randv) :
    (chooseAction 0 randv randIdx t k).1 = argmaxIdx (getRow (ensureState t k) k) ∧
    argmaxIdx (getRow (ensureState t k) k) < (getRow (ensureState t k) k).length ∧
    (∀ j, j < (getRow (ensureState t k) k).length →
      (getRow (ensureState t k) k).getD j 0 ≤
        (getRow (ensureState t k) k).getD (argmaxIdx (getRow (ensureState t k) k)) 0) ∧
    (∀ j, j < argmaxIdx (getRow (ensureState t k) k) →
      (getRow (ensureState t k) k).getD j 0 <
        (getRow (ensureState t k) k).getD (argmaxIdx (getRow (ensureState t k) k)) 0) ∧
    (t k = none → (chooseAction 0 randv randIdx t k).1 = 0) := by
  have hsel : (chooseAction 0 randv randIdx t k).1 = argmaxIdx (getRow (ensureState t k) k) := by
    simp [chooseAction, not_lt.mpr hrv]
  have hlen : (getRow (ensureState t k) k).length = A := by
    rw [getRow, ensureState_self]
    cases htk : t k with
    | none => simp
    | some row => simpa using hWF row htk
  have hpos : 0 < (getRow (ensureState t k) k).length := by
    rw [hlen]
    decide
  obtain ⟨x, xs, hrow⟩ : ∃ x xs, getRow (ensureState t k) k = x :: xs := by
    cases hr : getRow (ensureState t k) k with
    | nil => rw [hr] at hpos; simp at hpos
    | cons x xs => exact ⟨x, xs, rfl⟩
  rcases argmaxIdx_spec x xs with ⟨hj, hfirst, hmax⟩
  refine ⟨hsel, ?_, ?_, ?_, ?_⟩
  · rw [hrow]
    exact hj
  · intro j hjl
    rw [hrow] at hjl ⊢
    rw [List.getD_eq_get _ _ hjl, List.getD_eq_get _ _ hj]
    exact hmax j hjl
  · intro j hja
    have hjl : j < (getRow (ensureState t k) k).length := by
      rw [hrow] at hja ⊢
      exact lt_trans hja hj
    rw [hrow] at hjl hja ⊢
    rw [List.getD_eq_get _ _ hjl, List.getD_eq_get _ _ hj]
    exact hfirst j hjl hja
  · intro hnone
    rw [hsel]
    have hzero : getRow (ensureState t k) k = List.replicate A 0 := by
      rw [getRow, ensureState_self, hnone]
      rfl
    rw [hzero]
    exact argmaxIdx_all_eq _ (0 : ℚ) (fun m hm => by simp)

/-- Witness for C3: on a table holding one nontrivial row the greedy
choice picks the first maximum. -/
theorem chooseAction_greedy_witness :
    (∀ row, (fun k1 => if k1 = "k" then some [(0:ℚ), 5, 2, 5, 1, 3] else none) "k" = some row →
      row.length = A) ∧ (0:ℚ) ≤ 1/2 ∧
    ((chooseAction 0 (1/2) 3 (fun k1 => if k1 = "k" then some [(0:ℚ), 5, 2, 5, 1, 3] else none)
        "k").1 =
      argmaxIdx (getRow (ensureState
        (fun k1 => if k1 = "k" then some [(0:ℚ), 5, 2, 5, 1, 3] else none) "k") "k") ∧
    argmaxIdx (getRow (ensureState
        (fun k1 => if k1 = "k" then some [(0:ℚ), 5, 2, 5, 1, 3] else none) "k") "k") <
      (getRow (ensureState
        (fun k1 => if k1 = "k" then some [(0:ℚ), 5, 2, 5, 1, 3] else none) "k") "k").length ∧
    (∀ j, j < (getRow (ensureState
        (fun k1 => if k1 = "k" then some [(0:ℚ), 5, 2, 5, 1, 3] else none) "k") "k").length →
      (getRow (ensureState
        (fun k1 => if k1 = "k" then some [(0:ℚ), 5, 2, 5, 1, 3] else none) "k") "k").getD j 0 ≤
        (getRow (ensureState
          (fun k1 => if k1 = "k" then some [(0:ℚ), 5, 2, 5, 1, 3] else none) "k") "k").getD
          (argmaxIdx (getRow (ensureState
            (fun k1 => if k1 = "k" then some [(0:ℚ), 5, 2, 5, 1, 3] else none) "k") "k")) 0) ∧
    (∀ j, j < argmaxIdx (getRow (ensureState
        (fun k1 => if k1 = "k" then some [(0:ℚ), 5, 2, 5, 1, 3] else none) "k") "k") →
      (getRow (ensureState
        (fun k1 => if k1 = "k" then some [(0:ℚ), 5, 2, 5, 1, 3] else none) "k") "k").getD j 0 <
        (getRow (ensureState
          (fun k1 => if k1 = "k" then some [(0:ℚ), 5, 2, 5, 1, 3] else none) "k") "k").getD
          (argmaxIdx (getRow (ensureState
            (fun k1 => if k1 = "k" then some [(0:ℚ), 5, 2, 5, 1, 3] else none) "k") "k")) 0) ∧
    ((fun k1 => if k1 = "k" then some [(0:ℚ), 5, 2, 5, 1, 3] else none) "k" = none →
      (chooseAction 0 (1/2) 3 (fun k1 => if k1 = "k" then some [(0:ℚ), 5, 2, 5, 1, 3] else none)
        "k").1 = 0)) :=
  ⟨fun row h => by simp only [if_pos rfl] at h; rw [← Option.some_inj.mp h]; decide,
    by norm_num,
    chooseAction_greedy (1/2) 3 (fun k1 => if k1 = "k" then some [(0:ℚ), 5, 2, 5, 1, 3] else none)
      "k" (fun row h => by simp only [if_pos rfl] at h; rw [← Option.some_inj.mp h]; decide)
      (by norm_num)⟩

/-- Closed form of the clamped decay iteration: starting at or above the
floor, `n` ticks produce `max floor (e * factor^n)`. -/
lemma decayIterate_formula : ∀ (n : ℕ) (e : ℚ), epsilonFloor ≤ e →
    decayIterate n e = max epsilonFloor (e * decayFactor ^ n) := by
  intro n
  induction n with
  | zero =>
    intro e he
    simp [decayIterate, max_eq_right he]
  | succ m ih =>
    intro e he
    have hstep : decayIterate (m + 1) e = decayIterate m (decayStep e) := rfl
    rw [hstep, ih (decayStep e) (le_max_left _ _), decayStep]
    by_cases h : epsilonFloor ≤ e * decayFactor
    · rw [max_eq_right h]
      have : e * decayFactor * decayFactor ^ m = e * decayFactor ^ (m + 1) := by ring
      rw [this]
    · push_neg at h
      rw [max_eq_left (le_of_lt h)]
      have hf0 : (0:ℚ) ≤ decayFactor := by norm_num [decayFactor]
      have hf1 : decayFactor ≤ (1:ℚ) := by norm_num [decayFactor]
      have hpow0 : (0:ℚ) ≤ decayFactor ^ m := pow_nonneg hf0 m
      have hpow1 : decayFactor ^ m ≤ 1 := pow_le_one₀ hf0 hf1
      have hc0 : (0:ℚ) ≤ epsilonFloor := by norm_num [epsilonFloor]
      have h1 : epsilonFloor * decayFactor ^ m ≤ epsilonFloor := by
        calc epsilonFloor * decayFactor ^ m ≤ epsilonFloor * 1 :=
              mul_le_mul_of_nonneg_left hpow1 hc0
          _ = epsilonFloor := mul_one _
      have h2 : e * decayFactor ^ (m + 1) ≤ epsilonFloor := by
        have : e * decayFactor ^ (m + 1) = (e * decayFactor) * decayFactor ^ m := by ring
        rw [this]
        calc (e * decayFactor) * decayFactor ^ m ≤ epsilonFloor * decayFactor ^ m :=
              mul_le_mul_of_nonneg_right (le_of_lt h) hpow0
          _ ≤ epsilonFloor := h1
      rw [max_eq_left h1, max_eq_left h2]

/-- Claim C7 counterexample: the rate can land exactly on the floor.
Starting one tick above the floor (initial rate 0.010004 > 0.01), a
single periodic tick clamps to exactly 0.01 = floor, so the rate does
reach the floor, contradicting "never reaches or goes below". -/
theorem epsilon_decay_counterexample :
    epsilonFloor < 10004/1000000 ∧
    decayIterate 1 (10004/1000000) = epsilonFloor := by
  constructor
  · norm_num [epsilonFloor]
  · norm_num [decayIterate, decayStep, epsilonFloor, decayFactor]

/-- Claim C7 (amended): for an initial rate at or above the floor, after
`N` ticks the rate is exactly `max(floor, initial * decayFactor^N)`, with
a decay factor strictly below 1; the rate never goes strictly below the
floor (it can reach the floor exactly). -/
theorem epsilon_decay (e : ℚ) (N : ℕ) (he : epsilonFloor ≤ e) :
    decayIterate N e = max epsilonFloor (e * decayFactor ^ N) ∧
    decayFactor < 1 ∧
    epsilonFloor ≤ decayIterate N e := by
  refine ⟨decayIterate_formula N e he, by norm_num [decayFactor], ?_⟩
  rw [decayIterate_formula N e he]
  exact le_max_left _ _

/-- Witness for C7's amended theorem: three ticks from the default
initial rate 0.25. -/
theorem epsilon_decay_witness :
    epsilonFloor ≤ defaultEpsilon ∧
    (decayIterate 3 defaultEpsilon = max epsilonFloor (defaultEpsilon * decayFactor ^ 3) ∧
    decayFactor < 1 ∧
    epsilonFloor ≤ decayIterate 3 defaultEpsilon) :=
  ⟨by norm_num [epsilonFloor, defaultEpsilon],
    epsilon_decay defaultEpsilon 3 (by norm_num [epsilonFloor, defaultEpsilon])⟩

/-- Claim C8 (code bug shown on the code): the reward branch performs no
finiteness validation.  With a pending decision for `"b1"`, a reward
field that parsed to `Infinity` (as `JSON.parse` produces for `1e999`) is
truthy, passes `Number(msg.reward || 0)` unchanged, and is handed to
`updateQ` even though it is not finite. -/
theorem reward_validation_missing :
    rewardPassedToUpdateQ (recordDecision emptyBotState "b1" ⟨"0|0|4|0|0", 0, 0⟩)
      (some "b1") (some JSNum.inf) = some JSNum.inf ∧
    JSNum.isFinite JSNum.inf = false := by
  constructor
  · simp [rewardPassedToUpdateQ, recordDecision, emptyBotState, jsBotId, coerceReward, jsNumTruthy]
  · rfl

/-- Claim C10: handling an observation never modifies an existing row —
every present row survives unchanged, keys other than the discretized
state key are untouched, and the only possible change is inserting the
all-zero row of length `A` at a previously absent state key. -/
theorem obs_frame (eps randv : ℚ) (randIdx now : ℕ) (t : QTable) (bs : BotState)
    (botId : Option String) (obs : Obs) :
    (∀ k row, t k = some row → (handleObs eps randv randIdx now t bs botId obs).1 k = some row) ∧
    (∀ k, k ≠ discretize obs → (handleObs eps randv randIdx now t bs botId obs).1 k = t k) ∧
    (t (discretize obs) = none →
      (handleObs eps randv randIdx now t bs botId obs).1 (discretize obs) =
        some (List.replicate A 0)) := by
  have h1 : (handleObs eps randv randIdx now t bs botId obs).1 =
      ensureState t (discretize obs) := by
    by_cases h : randv < eps
    · simp [handleObs, chooseAction, h]
    · simp [handleObs, chooseAction, h]
  rw [h1]
  refine ⟨?_, ?_, ?_⟩
  · intro k row hrow
    by_cases hk : k = discretize obs
    · subst hk
      rw [ensureState_self, hrow]
      rfl
    · rw [ensureState_other _ _ _ hk, hrow]
  · intro k hk
    exact ensureState_other _ _ _ hk
  · intro hnone
    rw [ensureState_self, hnone]
    rfl

/-- Witness for C10: an observation on the empty table inserts exactly
one zero row. -/
theorem obs_frame_witness :
    (∀ k row, emptyTable k = some row →
      (handleObs defaultEpsilon (1/2) 0 7 emptyTable emptyBotState (some "b1")
        ⟨none, none, none, none, none⟩).1 k = some row) ∧
    (∀ k, k ≠ discretize ⟨none, none, none, none, none⟩ →
      (handleObs defaultEpsilon (1/2) 0 7 emptyTable emptyBotState (some "b1")
        ⟨none, none, none, none, none⟩).1 k = emptyTable k) ∧
    (emptyTable (discretize ⟨none, none, none, none, none⟩) = none →
      (handleObs defaultEpsilon (1/2) 0 7 emptyTable emptyBotState (some "b1")
        ⟨none, none, none, none, none⟩).1 (discretize ⟨none, none, none, none, none⟩) =
        some (List.replicate A 0)) :=
  obs_frame defaultEpsilon (1/2) 0 7 emptyTable emptyBotState (some "b1")
    ⟨none, none, none, none, none⟩

/-- Claim C9: an observation and a reward whose bot-identifier fields are
absent (or falsy) are both processed under the literal id `"unknown"`,
so they reconcile with each other: the observation's pending decision is
found and consumed by the reward, which applies `updateQ` to the recorded
state and action. -/
theorem unknown_botid_reconcile (eps randv : ℚ) (randIdx now : ℕ) (t : QTable)
    (bs : BotState) (obs nextObs : Obs) (alpha gamma reward : ℚ)
    (bid1 bid2 : Option String)
    (h1 : bid1 = none ∨ bid1 = some "") (h2 : bid2 = none ∨ bid2 = some "") :
    jsBotId bid1 = "unknown" ∧ jsBotId bid2 = "unknown" ∧
    (handleObs eps randv randIdx now t bs bid1 obs).2.1 "unknown" =
      some ⟨discretize obs, (chooseAction eps randv randIdx t (discretize obs)).1, now⟩ ∧
    handleReward alpha gamma (handleObs eps randv randIdx now t bs bid1 obs).1
        (handleObs eps randv randIdx now t bs bid1 obs).2.1 bid2 reward nextObs =
      (updateQ alpha gamma (handleObs eps randv randIdx now t bs bid1 obs).1
          (discretize obs) (chooseAction eps randv randIdx t (discretize obs)).1 reward
          (discretize nextObs),
        fun b1 => if b1 = "unknown" then none
          else (handleObs eps randv randIdx now t bs bid1 obs).2.1 b1) := by
  have hb1 : jsBotId bid1 = "unknown" := by
    rcases h1 with h | h <;> simp [jsBotId, h]
  have hb2 : jsBotId bid2 = "unknown" := by
    rcases h2 with h | h <;> simp [jsBotId, h]
  have hbs : (handleObs eps randv randIdx now t bs bid1 obs).2.1 = recordDecision bs "unknown"
      ⟨discretize obs, (chooseAction eps randv randIdx t (discretize obs)).1, now⟩ := by
    simp [handleObs, hb1]
  have hlook : (handleObs eps randv randIdx now t bs bid1 obs).2.1 "unknown" =
      some ⟨discretize obs, (chooseAction eps randv randIdx t (discretize obs)).1, now⟩ := by
    rw [hbs]
    simp [recordDecision]
  have hcons : consumeDecision (handleObs eps randv randIdx now t bs bid1 obs).2.1 "unknown" =
      (some ⟨discretize obs, (chooseAction eps randv randIdx t (discretize obs)).1, now⟩,
        fun b1 => if b1 = "unknown" then none
          else (handleObs eps randv randIdx now t bs bid1 obs).2.1 b1) := by
    simp [consumeDecision, hlook]
  refine ⟨hb1, hb2, hlook, ?_⟩
  simp only [handleReward, hb2, hcons]

/-- Witness for C9: an observation with an absent bot id followed by a
reward with an empty-string bot id reconcile under `"unknown"`. -/
theorem unknown_botid_reconcile_witness :
    ((none : Option String) = none ∨ (none : Option String) = some "") ∧
    ((some "" : Option String) = none ∨ (some "" : Option String) = some "") ∧
    (jsBotId none = "unknown" ∧ jsBotId (some "") = "unknown" ∧
    (handleObs defaultEpsilon (1/2) 0 9 emptyTable emptyBotState none
        ⟨none, none, none, none, none⟩).2.1 "unknown" =
      some ⟨discretize ⟨none, none, none, none, none⟩,
        (chooseAction defaultEpsilon (1/2) 0 emptyTable
          (discretize ⟨none, none, none, none, none⟩)).1, 9⟩ ∧
    handleReward defaultAlpha defaultGamma
        (handleObs defaultEpsilon (1/2) 0 9 emptyTable emptyBotState none
          ⟨none, none, none, none, none⟩).1
        (handleObs defaultEpsilon (1/2) 0 9 emptyTable emptyBotState none
          ⟨none, none, none, none, none⟩).2.1 (some "") 2 ⟨some 80, none, none, none, none⟩ =
      (updateQ defaultAlpha defaultGamma
          (handleObs defaultEpsilon (1/2) 0 9 emptyTable emptyBotState none
            ⟨none, none, none, none, none⟩).1
          (discretize ⟨none, none, none, none, none⟩)
          (chooseAction defaultEpsilon (1/2) 0 emptyTable
            (discretize ⟨none, none, none, none, none⟩)).1 2
          (discretize ⟨some 80, none, none, none, none⟩),
        fun b1 => if b1 = "unknown" then none
          else (handleObs defaultEpsilon (1/2) 0 9 emptyTable emptyBotState none
            ⟨none, none, none, none, none⟩).2.1 b1)) :=
  ⟨Or.inl rfl, Or.inr rfl,
    unknown_botid_reconcile defaultEpsilon (1/2) 0 9 emptyTable emptyBotState
      ⟨none, none, none, none, none⟩ ⟨some 80, none, none, none, none⟩
      defaultAlpha defaultGamma 2 none (some "") (Or.inl rfl) (Or.inr rfl)⟩

end BotServer
